import Mathlib

/-!
Verification of the data-streaming and n-gram extraction pipeline in
`blocks/datasets/text.py` (`TextFile`, `NGramStream`).

The Python code is shallowly embedded: sentences are lists of integers,
dictionaries are association lists, Python slices are modelled by `pyTake` /
`pyDrop` (including negative-index semantics), and raised exceptions are
modelled with `Except PyError`.  `NGramStream.get_data` iterates over the
mutable cache list with an advancing index while the head of that list is
sliced and popped in place; the loop below (`ngramLoop`) reproduces exactly
that index-based iteration over the mutating list.
-/

/-- A sentence: a list of integer token ids (`list of integers` in the code). -/
abbrev Sentence := List Int

/-- A token dictionary: an association list from token strings to ids,
looked up with `List.lookup` (first match), modelling a Python dict. -/
abbrev Dict := List (String × Int)

/-- Python exceptions raised by the modelled code.  The error taxonomy of the spec
maps `ValueError` to `ConfigurationError`/`InvalidRequestError` and
`StopIteration` to `EndOfDataError`. -/
inductive PyError where
  | valueError
  | typeError
  | keyError
  | stopIteration
deriving DecidableEq

/-- Python slice `xs[:n]` for an integer `n`; a negative `n` counts from the
end of the list. -/
def pyTake (n : Int) (xs : List α) : List α :=
  if 0 ≤ n then xs.take n.toNat else xs.take (xs.length - (-n).toNat)

/-- Python slice `xs[n:]` for an integer `n`; a negative `n` counts from the
end of the list. -/
def pyDrop (n : Int) (xs : List α) : List α :=
  if 0 ≤ n then xs.drop n.toNat else xs.drop (xs.length - (-n).toNat)

/-- `toolz.sliding_window K seq`: all contiguous length-`K` windows of `seq`,
in order (empty when `K = 0` or the sequence is shorter than `K`). -/
def slidingWindow (K : Nat) : List Int → List (List Int)
  | [] => []
  | x :: xs =>
    if K = 0 ∨ (x :: xs).length < K then []
    else (x :: xs).take K :: slidingWindow K xs

/-- Helper for `pySplit`: walks the characters, accumulating the current
token (reversed) and emitting it at each whitespace run boundary. -/
def pySplitAux : List Char → List Char → List String
  | [], acc => if acc.isEmpty then [] else [String.mk acc.reverse]
  | c :: cs, acc =>
    if c.isWhitespace then
      if acc.isEmpty then pySplitAux cs []
      else String.mk acc.reverse :: pySplitAux cs []
    else pySplitAux cs (c :: acc)

/-- Python `str.split()`: split on runs of whitespace, discarding empty
pieces. -/
def pySplit (s : String) : List String :=
  pySplitAux s.data []

/-- Python `str.lower` (the lowercasing preprocess of the spec scenario),
over the character list; lowers basic latin letters. -/
def lowerLine (s : String) : String :=
  String.mk (s.data.map Char.toLower)

/-- `self.preprocess(sentence)` when a preprocess function is configured,
the identity otherwise. -/
def applyPreprocess (preprocess : Option (String → String)) (line : String) : String :=
  match preprocess with
  | some p => p line
  | none => line

/-- The state of a constructed `TextFile` dataset (its `__init__` fields). -/
structure TextFile where
  files : List String
  dictionary : Dict
  bos_token : Option String
  eos_token : Option String
  unk_token : String
  level : String
  preprocess : Option (String → String)

/-- `TextFile.__init__` (text.py lines 74-91): validates that a non-`None`
BOS/EOS token and the unknown token are in the dictionary and that `level`
is `word` or `character`; `none` models the raised `ValueError`
(`ConfigurationError` in the taxonomy of the spec). -/
def TextFile.init (files : List String) (dictionary : Dict)
    (bos_token eos_token : Option String) (unk_token : String)
    (level : String) (preprocess : Option (String → String)) : Option TextFile :=
  if bos_token.any (fun b => (List.lookup b dictionary).isNone) then none
  else if eos_token.any (fun e => (List.lookup e dictionary).isNone) then none
  else if (List.lookup unk_token dictionary).isNone then none
  else if level ≠ ("word") ∧ level ≠ ("character") then none
  else some ⟨files, dictionary, bos_token, eos_token, unk_token, level, preprocess⟩

/-- Python `dictionary[t]` (`__getitem__`): `KeyError` when the key is absent. -/
def dictGetItem (d : Dict) (t : String) : Except PyError Int :=
  match List.lookup t d with
  | some v => Except.ok v
  | none => Except.error PyError.keyError

/-- `[self.dictionary[tok]] if tok else []`: Python truthiness — both `None`
and the empty string are falsy, so no id is emitted for them. -/
def sentinelIds (d : Dict) (tok : Option String) : Except PyError (List Int) :=
  match tok with
  | none => Except.ok []
  | some t =>
    if t = "" then Except.ok []
    else (dictGetItem d t).map (fun v => [v])

/-- The token list of a (preprocessed) line: split at whitespace for the
`word` level, the characters of the stripped line otherwise
(text.py lines 106-111). -/
def TextFile.tokens (tf : TextFile) (sentence : String) : List String :=
  if tf.level = ("word") then pySplit sentence
  else sentence.trim.data.map Char.toString

/-- `[self.dictionary.get(tok, self.dictionary[self.unk_token]) for tok in toks]`:
each token is mapped to its id, falling back to the unknown-token id; the
dictionary access for the fallback raises `KeyError` only when it is actually
evaluated, i.e. when there is at least one token. -/
def unkMapIds (d : Dict) (unk : String) (toks : List String) : Except PyError (List Int) :=
  match List.lookup unk d with
  | some u => Except.ok (toks.map (fun t => (List.lookup t d).getD u))
  | none => if toks.isEmpty then Except.ok [] else Except.error PyError.keyError

/-- `TextFile.get_data` (text.py lines 99-113).  `state` is the remaining
lines of the opened file iterator; a non-`None` `request` raises `ValueError`,
an exhausted iterator raises `StopIteration` (the `EndOfDataError` of the spec).
Returns the encoded sentence and the advanced iterator. -/
def TextFile.get_data (tf : TextFile) (state : List String) (request : Option Nat) :
    Except PyError (List Int × List String) :=
  match request with
  | some _ => Except.error PyError.valueError
  | none =>
    match state with
    | [] => Except.error PyError.stopIteration
    | line :: rest =>
      let sentence := applyPreprocess tf.preprocess line
      match sentinelIds tf.dictionary tf.bos_token with
      | Except.error e => Except.error e
      | Except.ok bosIds =>
        match unkMapIds tf.dictionary tf.unk_token (tf.tokens sentence) with
        | Except.error e => Except.error e
        | Except.ok bodyIds =>
          match sentinelIds tf.dictionary tf.eos_token with
          | Except.error e => Except.error e
          | Except.ok eosIds => Except.ok (bosIds ++ bodyIds ++ eosIds, rest)

/-- `NGramStream.__init__` (text.py lines 203-209): rejects an upstream
stream with more than one source (`ValueError`, the `ConfigurationError`
of the spec), and appends the target source to the sources tuple.
Returns the resulting sources together with the stored n-gram order. -/
def NGramStream.init (ngram_order : Nat) (sources : List String)
    (target_source : String) : Option (List String × Nat) :=
  if 1 < sources.length then none
  else some (sources ++ [target_source], ngram_order)

/-- Modelled from the spec: the upstream refill primitive
(`CachedDataStream._cache` from the external `fuel` library is not under
`src/`).  Per the spec it is a cache/refill primitive that returns a fresh
batch of sentences when invoked, invoked exactly when the cache becomes
empty, extending the cache in place with the next upstream batch; when the
upstream is exhausted, production terminates (the cache is left empty). -/
def cacheRefill (cache : List Sentence) (up : List (List Sentence)) :
    List Sentence × List (List Sentence) :=
  match up with
  | [] => (cache, [])
  | b :: ub => (cache ++ b, ub)

/-- The cache mutation performed by one iteration of the loop body of
`NGramStream.get_data` (text.py lines 219-223):
`self.cache[0][0] = self.cache[0][0][request:]`, then pop the head if it
became empty, then refill if the cache became empty. -/
def ngramStep (r : Int) (C : List Sentence) (up : List (List Sentence)) :
    List Sentence × List (List Sentence) :=
  let c0 := pyDrop r C.headI
  if c0.isEmpty then
    if C.tail.isEmpty then cacheRefill C.tail up
    else (C.tail, up)
  else (c0 :: C.tail, up)

/-- Weight of the pending upstream batches, used as part of the loop
termination measure. -/
def upWeight (up : List (List Sentence)) : Nat :=
  (up.map (fun b => b.length + 1)).sum

/-- Termination measure for `ngramLoop`: it strictly decreases on every
iteration of the mutating-list loop. -/
def loopMeasure (C : List Sentence) (up : List (List Sentence)) (idx : Nat) : Nat :=
  C.length + 1 - idx + upWeight up

theorem ngramStep_cases (r : Int) (C : List Sentence) (up : List (List Sentence)) :
    ngramStep r C up = (pyDrop r C.headI :: C.tail, up) ∨
    ngramStep r C up = (C.tail, up) ∨
    (∃ b ub, up = b :: ub ∧ ngramStep r C up = (b, ub)) ∨
    (up = [] ∧ ngramStep r C up = ([], [])) := by
  unfold ngramStep cacheRefill
  by_cases h0 : (pyDrop r C.headI).isEmpty
  · by_cases h1 : C.tail.isEmpty
    · rw [List.isEmpty_iff] at h1
      cases up with
      | nil => right; right; right; simp [h0, h1]
      | cons b ub => right; right; left; exact ⟨b, ub, rfl, by simp [h0, h1]⟩
    · right; left; simp [h0, h1]
  · left; simp [h0]

theorem ngramStep_measure_lt (r : Int) (C : List Sentence) (up : List (List Sentence))
    (idx : Nat) (h : idx < C.length) :
    loopMeasure (ngramStep r C up).1 (ngramStep r C up).2 (idx + 1) <
      loopMeasure C up idx := by
  have hlen : C.tail.length = C.length - 1 := List.length_tail C
  rcases ngramStep_cases r C up with hc | hc | ⟨b, ub, hup, hc⟩ | ⟨hup, hc⟩
  · rw [hc]; simp only [loopMeasure, List.length_cons, hlen]; omega
  · rw [hc]; simp only [loopMeasure, hlen]; omega
  · rw [hc, hup]
    simp only [loopMeasure, upWeight, List.map_cons, List.sum_cons]
    omega
  · rw [hc, hup]
    simp only [loopMeasure, upWeight, List.map_nil, List.sum_nil, List.length_nil]
    omega

/-- The body of `NGramStream.get_data` (text.py lines 212-225).  It models the
Python `for _, sentence in enumerate(self.cache[0])` loop faithfully: the list
iterator advances an index over the very list object that is mutated in place
(head sliced by `request` tokens, popped when empty, extended by a refill), so
`sentence` is read at position `idx` of the *current* cache.  `feats` and
`tgts` accumulate one group per processed sentence, each truncated to
`request - len(accumulated)` elements, and the loop breaks once
`len(features) == request`; since the append adds exactly one group, that
check is written here as `feats.length + 1 = r` on the pre-append length. -/
def ngramLoop (K : Nat) (r : Int) (C : List Sentence) (up : List (List Sentence))
    (idx : Nat) (feats : List (List (List Int))) (tgts : List (List Int)) :
    List (List (List Int)) × List (List Int) × List Sentence × List (List Sentence) :=
  if _h : idx < C.length then
    if (feats.length : Int) + 1 = r then
      (feats ++ [pyTake (r - (feats.length : Int)) (slidingWindow K (C.getD idx []).dropLast)],
       tgts ++ [pyTake (r - (tgts.length : Int)) ((C.getD idx []).drop K)],
       (ngramStep r C up).1, (ngramStep r C up).2)
    else
      ngramLoop K r (ngramStep r C up).1 (ngramStep r C up).2 (idx + 1)
        (feats ++ [pyTake (r - (feats.length : Int)) (slidingWindow K (C.getD idx []).dropLast)])
        (tgts ++ [pyTake (r - (tgts.length : Int)) ((C.getD idx []).drop K)])
  else (feats, tgts, C, up)
termination_by loopMeasure C up idx
decreasing_by
  exact ngramStep_measure_lt r C up idx _h

/-- `NGramStream.get_data` (text.py lines 211-226).  With `request = None`
(the default) the slice bound `request - len(features)` is `None - int`, a
`TypeError`, as soon as the loop body runs at all; with an empty cache the
loop body never runs and two empty sequences are returned.  Returns the
(features, targets) groups plus the final cache and upstream state. -/
def NGramStream.get_data (K : Nat) (request : Option Int)
    (cache : List Sentence) (up : List (List Sentence)) :
    Except PyError
      (List (List (List Int)) × List (List Int) × List Sentence × List (List Sentence)) :=
  match request with
  | some r => Except.ok (ngramLoop K r cache up 0 [] [])
  | none =>
    match cache with
    | [] => Except.ok ([], [], [], up)
    | _ :: _ => Except.error PyError.typeError

/-- A sequence of consecutive `NGramStream.get_data` calls with the given
integer requests, threading the cache and upstream state; returns the list of
(features, targets) results together with the final state. -/
def NGramStream.runRequests (K : Nat) :
    List Int → List Sentence → List (List Sentence) →
    List (List (List (List Int)) × List (List Int)) × List Sentence × List (List Sentence)
  | [], C, up => ([], C, up)
  | r :: rs, C, up =>
    (((ngramLoop K r C up 0 [] []).1, (ngramLoop K r C up 0 [] []).2.1) ::
        (NGramStream.runRequests K rs (ngramLoop K r C up 0 [] []).2.2.1
          (ngramLoop K r C up 0 [] []).2.2.2).1,
      (NGramStream.runRequests K rs (ngramLoop K r C up 0 [] []).2.2.1
        (ngramLoop K r C up 0 [] []).2.2.2).2)

/-- The flattened window/target examples of a list of `get_data` results. -/
def flatExamples (outs : List (List (List (List Int)) × List (List Int))) :
    List (List Int) × List Int :=
  ((outs.map (fun o => o.1.flatten)).flatten, (outs.map (fun o => o.2.flatten)).flatten)

/-! ### Lemmas about the slice and window helpers -/

theorem pyTake_eq_take_of_nonneg {n : Int} (h : 0 ≤ n) (xs : List α) :
    pyTake n xs = xs.take n.toNat := by
  simp [pyTake, h]

theorem pyTake_subset (n : Int) (xs : List α) : ∀ a ∈ pyTake n xs, a ∈ xs := by
  intro a ha
  unfold pyTake at ha
  split at ha <;> exact List.take_subset _ _ ha

theorem pyTake_of_length_le {n : Int} (xs : List α) (h : (xs.length : Int) ≤ n) :
    pyTake n xs = xs := by
  have h0 : 0 ≤ n := le_trans (Int.natCast_nonneg _) h
  rw [pyTake_eq_take_of_nonneg h0]
  apply List.take_of_length_le
  omega

theorem pyDrop_eq_drop (n : Int) (xs : List α) : ∃ m, pyDrop n xs = xs.drop m := by
  unfold pyDrop
  split
  · exact ⟨n.toNat, rfl⟩
  · exact ⟨xs.length - (-n).toNat, rfl⟩

theorem pyDrop_of_length_le {n : Int} (xs : List α) (h : (xs.length : Int) ≤ n) :
    pyDrop n xs = [] := by
  have h0 : 0 ≤ n := le_trans (Int.natCast_nonneg _) h
  simp only [pyDrop, if_pos h0]
  apply List.drop_eq_nil_of_le
  omega

theorem slidingWindow_eq_map {K : Nat} (hK : 1 ≤ K) :
    ∀ xs : List Int,
      slidingWindow K xs = (List.range (xs.length + 1 - K)).map (fun i => (xs.drop i).take K)
  | [] => by
    have h0 : 0 + 1 - K = 0 := by omega
    simp [slidingWindow, h0]
  | x :: xs => by
    by_cases h : (x :: xs).length < K
    · have h0 : (x :: xs).length + 1 - K = 0 := by omega
      rw [slidingWindow, if_pos (Or.inr h), h0]
      simp
    · have hne : ¬(K = 0 ∨ (x :: xs).length < K) := by omega
      rw [slidingWindow, if_neg hne, slidingWindow_eq_map hK xs]
      have hx : (x :: xs).length = xs.length + 1 := List.length_cons x xs
      rw [hx] at h
      have hlen : (x :: xs).length + 1 - K = (xs.length + 1 - K) + 1 := by
        rw [hx]; omega
      rw [hlen, List.range_succ_eq_map]
      simp only [List.map_cons, List.map_map, List.drop_zero, Function.comp]
      congr 1

theorem slidingWindow_length {K : Nat} (hK : 1 ≤ K) (xs : List Int) :
    (slidingWindow K xs).length = xs.length + 1 - K := by
  rw [slidingWindow_eq_map hK, List.length_map, List.length_range]

theorem mem_slidingWindow {K : Nat} {xs w : List Int} (hw : w ∈ slidingWindow K xs) :
    1 ≤ K ∧ ∃ i, i + K ≤ xs.length ∧ w = (xs.drop i).take K := by
  by_cases hK : 1 ≤ K
  · rw [slidingWindow_eq_map hK] at hw
    simp only [List.mem_map, List.mem_range] at hw
    obtain ⟨i, hi, hww⟩ := hw
    exact ⟨hK, i, by omega, hww.symm⟩
  · exfalso
    have h0 : K = 0 := by omega
    subst h0
    cases xs <;> simp [slidingWindow] at hw

theorem getD_append_left {l1 l2 : List α} {i : Nat} (h : i < l1.length) (d : α) :
    (l1 ++ l2).getD i d = l1.getD i d := by
  simp [List.getD_eq_getElem?_getD, List.getElem?_append_left h]

theorem getD_append_self (l1 : List α) (a d : α) :
    (l1 ++ [a]).getD l1.length d = a := by
  simp [List.getD_eq_getElem?_getD, List.getElem?_append_right (le_refl l1.length)]

/-! ### Sentence-boundary invariants of the n-gram loop -/

/-- `c` is a suffix (a `List.drop`) of one of the original upstream
sentences; cache entries always have this shape, because the head of the
cache is only ever shortened from the front. -/
def tailOf (orig : List Sentence) (c : Sentence) : Prop :=
  ∃ s, s ∈ orig ∧ ∃ i, c = s.drop i

/-- `w` is a contiguous block of `K` tokens of a single original sentence
that is followed, inside that same sentence, by at least one further token
(the token the paired target predicts). -/
def winFrom (orig : List Sentence) (K : Nat) (w : List Int) : Prop :=
  ∃ s, s ∈ orig ∧ ∃ i, w = (s.drop i).take K ∧ i + K + 1 ≤ s.length

theorem window_in_tail {t : List Int} {j i K : Nat} (hK : 1 ≤ K)
    (h : i + K ≤ ((t.drop j).dropLast).length) :
    (((t.drop j).dropLast).drop i).take K = (t.drop (j + i)).take K ∧
      j + i + K + 1 ≤ t.length := by
  have hlen : ((t.drop j).dropLast).length = t.length - j - 1 := by
    simp [List.length_dropLast, List.length_drop]
  constructor
  · rw [List.dropLast_eq_take, List.drop_take, List.take_take]
    have hmin : min K ((t.drop j).length - 1 - i) = K := by
      rw [List.length_drop]; omega
    rw [hmin, List.drop_drop]
  · omega

theorem getD_mem_of_lt {l : List α} {i : Nat} (h : i < l.length) (d : α) :
    l.getD i d ∈ l := by
  rw [List.getD_eq_getElem?_getD, List.getElem?_eq_getElem h]
  exact List.getElem_mem h

theorem tailOf_pyDrop {orig : List Sentence} {c : Sentence} (h : tailOf orig c) (r : Int) :
    tailOf orig (pyDrop r c) := by
  obtain ⟨s, hs, j, rfl⟩ := h
  obtain ⟨m, hm⟩ := pyDrop_eq_drop r (s.drop j)
  exact ⟨s, hs, j + m, by rw [hm, List.drop_drop]⟩

theorem winFrom_group {orig : List Sentence} {c : Sentence} (hc : tailOf orig c)
    (K : Nat) (n : Int) :
    ∀ w ∈ pyTake n (slidingWindow K c.dropLast), winFrom orig K w := by
  intro w hw
  have hw2 := pyTake_subset n _ w hw
  obtain ⟨hK, i, hile, hweq⟩ := mem_slidingWindow hw2
  obtain ⟨s, hs, j, rfl⟩ := hc
  obtain ⟨heq, hbound⟩ := window_in_tail hK hile
  exact ⟨s, hs, j + i, by rw [hweq, heq], hbound⟩

theorem ngramStep_tailOf {orig : List Sentence} {C : List Sentence}
    {up : List (List Sentence)} (r : Int) (hCne : C ≠ [])
    (hC : ∀ c ∈ C, tailOf orig c) (hup : ∀ c ∈ up.flatten, tailOf orig c) :
    (∀ c ∈ (ngramStep r C up).1, tailOf orig c) ∧
    (∀ c ∈ (ngramStep r C up).2.flatten, tailOf orig c) := by
  have htail : ∀ c ∈ C.tail, tailOf orig c := by
    intro c hc
    exact hC c (List.mem_of_mem_tail hc)
  have hhead : tailOf orig (pyDrop r C.headI) := by
    apply tailOf_pyDrop _ r
    obtain ⟨c, ct, rfl⟩ := List.exists_cons_of_ne_nil hCne
    exact hC c (List.mem_cons_self c ct)
  rcases ngramStep_cases r C up with hc | hc | ⟨b, ub, hupEq, hc⟩ | ⟨hupEq, hc⟩
  · rw [hc]
    refine ⟨?_, hup⟩
    intro c hcm
    rcases List.mem_cons.mp hcm with h1 | h1
    · rw [h1]; exact hhead
    · exact htail c h1
  · rw [hc]
    exact ⟨htail, hup⟩
  · rw [hc]
    constructor
    · intro c hcb
      refine hup c (List.mem_flatten.mpr ⟨b, ?_, hcb⟩)
      rw [hupEq]
      exact List.mem_cons_self b ub
    · intro c hcu
      apply hup
      rw [hupEq, List.flatten_cons]
      exact List.mem_append_right b hcu
  · rw [hc]
    refine ⟨?_, ?_⟩
    · intro c hcm
      cases hcm
    · intro c hcm
      simp at hcm

theorem ngramLoop_winFrom (K : Nat) (r : Int) (orig : List Sentence) :
    ∀ (N : Nat) (C : List Sentence) (up : List (List Sentence)) (idx : Nat)
      (feats : List (List (List Int))) (tgts : List (List Int)),
      loopMeasure C up idx ≤ N →
      (∀ c ∈ C, tailOf orig c) →
      (∀ c ∈ up.flatten, tailOf orig c) →
      (∀ g ∈ feats, ∀ w ∈ g, winFrom orig K w) →
      (∀ g ∈ (ngramLoop K r C up idx feats tgts).1, ∀ w ∈ g, winFrom orig K w) ∧
      (∀ c ∈ (ngramLoop K r C up idx feats tgts).2.2.1, tailOf orig c) ∧
      (∀ c ∈ (ngramLoop K r C up idx feats tgts).2.2.2.flatten, tailOf orig c) := by
  intro N
  induction N with
  | zero =>
    intro C up idx feats tgts hN hC hup hf
    have hidx : ¬ idx < C.length := by
      unfold loopMeasure at hN; omega
    rw [ngramLoop.eq_def, dif_neg hidx]
    exact ⟨hf, hC, hup⟩
  | succ N ih =>
    intro C up idx feats tgts hN hC hup hf
    by_cases hidx : idx < C.length
    · have hCne : C ≠ [] := by
        intro hnil
        rw [hnil] at hidx
        simp at hidx
      have hG : ∀ w ∈ pyTake (r - (feats.length : Int))
          (slidingWindow K ((C.getD idx []).dropLast)), winFrom orig K w :=
        winFrom_group (hC _ (getD_mem_of_lt hidx [])) K _
      have hF2 : ∀ g ∈ feats ++ [pyTake (r - (feats.length : Int))
          (slidingWindow K ((C.getD idx []).dropLast))], ∀ w ∈ g, winFrom orig K w := by
        intro g hg
        rcases List.mem_append.mp hg with h1 | h1
        · exact hf g h1
        · rw [List.mem_singleton] at h1
          rw [h1]
          exact hG
      have hstep := ngramStep_tailOf r hCne hC hup
      rw [ngramLoop.eq_def, dif_pos hidx]
      by_cases hb : (feats.length : Int) + 1 = r
      · rw [if_pos hb]
        exact ⟨hF2, hstep.1, hstep.2⟩
      · rw [if_neg hb]
        apply ih
        · have := ngramStep_measure_lt r C up idx hidx
          omega
        · exact hstep.1
        · exact hstep.2
        · exact hF2
    · rw [ngramLoop.eq_def, dif_neg hidx]
      exact ⟨hf, hC, hup⟩

theorem runRequests_winFrom (K : Nat) (orig : List Sentence) :
    ∀ (rs : List Int) (C : List Sentence) (up : List (List Sentence)),
      (∀ c ∈ C, tailOf orig c) →
      (∀ c ∈ up.flatten, tailOf orig c) →
      (∀ out ∈ (NGramStream.runRequests K rs C up).1, ∀ g ∈ out.1, ∀ w ∈ g,
        winFrom orig K w) ∧
      (∀ c ∈ (NGramStream.runRequests K rs C up).2.1, tailOf orig c) ∧
      (∀ c ∈ (NGramStream.runRequests K rs C up).2.2.flatten, tailOf orig c) := by
  intro rs
  induction rs with
  | nil =>
    intro C up hC hup
    refine ⟨?_, hC, hup⟩
    intro out hout
    cases hout
  | cons r rs ih =>
    intro C up hC hup
    have hq := ngramLoop_winFrom K r orig (loopMeasure C up 0) C up 0 [] []
      le_rfl hC hup (by intro g hg; cases hg)
    have hrest := ih _ _ hq.2.1 hq.2.2
    refine ⟨?_, hrest.2.1, hrest.2.2⟩
    intro out hout
    rw [NGramStream.runRequests] at hout
    rcases List.mem_cons.mp hout with h1 | h1
    · rw [h1]
      exact hq.1
    · exact hrest.1 out h1

/-! ### Group-count structure of one `get_data` call -/

theorem group_lengths (K : Nat) (hK : 1 ≤ K) (r : Int) (idx : Nat)
    (hlt : (idx : Int) < r) (s : Sentence) :
    (pyTake (r - (idx : Int)) (slidingWindow K s.dropLast)).length =
      (pyTake (r - (idx : Int)) (s.drop K)).length ∧
    ((pyTake (r - (idx : Int)) (slidingWindow K s.dropLast)).length : Int) + idx ≤ r := by
  have h0 : 0 ≤ r - (idx : Int) := by omega
  rw [pyTake_eq_take_of_nonneg h0, pyTake_eq_take_of_nonneg h0]
  constructor
  · rw [List.length_take, List.length_take, slidingWindow_length hK,
      List.length_dropLast, List.length_drop]
    omega
  · rw [List.length_take]
    omega

theorem groups_snoc {r : Int} {feats : List (List (List Int))} {tgts : List (List Int)}
    {idx : Nat} (hfl : feats.length = idx) (htl : tgts.length = idx)
    (hgroups : ∀ i, i < idx →
      (feats.getD i []).length = (tgts.getD i []).length ∧
      ((feats.getD i []).length : Int) + (i : Int) ≤ r)
    {g1 : List (List Int)} {g2 : List Int}
    (hlen : g1.length = g2.length) (hbound : (g1.length : Int) + (idx : Int) ≤ r) :
    ∀ i, i < idx + 1 →
      (((feats ++ [g1]).getD i []).length = ((tgts ++ [g2]).getD i []).length) ∧
      ((((feats ++ [g1]).getD i []).length : Int) + (i : Int) ≤ r) := by
  intro i hi
  by_cases hlti : i < idx
  · rw [getD_append_left (by rw [hfl]; exact hlti) ([] : List (List Int)),
      getD_append_left (by rw [htl]; exact hlti) ([] : List Int)]
    exact hgroups i hlti
  · have hieq : i = idx := by omega
    subst hieq
    have e1 : (feats ++ [g1]).getD i [] = g1 := by
      rw [← hfl]
      exact getD_append_self feats g1 []
    have e2 : (tgts ++ [g2]).getD i [] = g2 := by
      rw [← htl]
      exact getD_append_self tgts g2 []
    rw [e1, e2]
    refine ⟨hlen, ?_⟩
    rw [← hfl] at hbound ⊢
    exact hbound

theorem ngramLoop_bounds (K : Nat) (r : Int) (hK : 1 ≤ K) :
    ∀ (N : Nat) (C : List Sentence) (up : List (List Sentence)) (idx : Nat)
      (feats : List (List (List Int))) (tgts : List (List Int)),
      loopMeasure C up idx ≤ N →
      feats.length = idx → tgts.length = idx → (idx : Int) < r →
      (∀ i, i < idx →
        (feats.getD i []).length = (tgts.getD i []).length ∧
        ((feats.getD i []).length : Int) + (i : Int) ≤ r) →
      (ngramLoop K r C up idx feats tgts).1.length =
          (ngramLoop K r C up idx feats tgts).2.1.length ∧
      ((ngramLoop K r C up idx feats tgts).1.length : Int) ≤ r ∧
      (∀ i, i < (ngramLoop K r C up idx feats tgts).1.length →
        ((ngramLoop K r C up idx feats tgts).1.getD i []).length =
          ((ngramLoop K r C up idx feats tgts).2.1.getD i []).length ∧
        (((ngramLoop K r C up idx feats tgts).1.getD i []).length : Int) + (i : Int) ≤ r) := by
  intro N
  induction N with
  | zero =>
    intro C up idx feats tgts hN hfl htl hlt hgroups
    have hidx : ¬ idx < C.length := by
      unfold loopMeasure at hN; omega
    rw [ngramLoop.eq_def, dif_neg hidx]
    refine ⟨by rw [hfl, htl], by rw [hfl]; omega, ?_⟩
    intro i hi
    rw [hfl] at hi
    exact hgroups i hi
  | succ N ih =>
    intro C up idx feats tgts hN hfl htl hlt hgroups
    by_cases hidx : idx < C.length
    · rw [ngramLoop.eq_def, dif_pos hidx, hfl, htl]
      have hg := group_lengths K hK r idx hlt (C.getD idx [])
      have hfl2 : (feats ++ [pyTake (r - (idx : Int))
          (slidingWindow K ((C.getD idx []).dropLast))]).length = idx + 1 := by
        rw [List.length_append, hfl, List.length_singleton]
      have htl2 : (tgts ++ [pyTake (r - (idx : Int))
          ((C.getD idx []).drop K)]).length = idx + 1 := by
        rw [List.length_append, htl, List.length_singleton]
      have hgroups2 := groups_snoc hfl htl hgroups hg.1 hg.2
      by_cases hb : (idx : Int) + 1 = r
      · rw [if_pos hb]
        refine ⟨by rw [hfl2, htl2], by rw [hfl2]; omega, ?_⟩
        intro i hi
        rw [hfl2] at hi
        exact hgroups2 i hi
      · rw [if_neg hb]
        apply ih
        · have := ngramStep_measure_lt r C up idx hidx
          omega
        · exact hfl2
        · exact htl2
        · omega
        · exact hgroups2
    · rw [ngramLoop.eq_def, dif_neg hidx]
      refine ⟨by rw [hfl, htl], by rw [hfl]; omega, ?_⟩
      intro i hi
      rw [hfl] at hi
      exact hgroups i hi

/-! ### Claim theorems -/

/-- C1 (counterexample): with `ngram_order = 2` and a cache holding two
sentences that can supply six window/target examples, `get_data(2)` returns
three examples (grouped per sentence), not exactly two: the loop budget
`request - len(features)` counts processed sentences, not produced examples. -/
theorem NGramStream.get_data_not_exactly_request :
    NGramStream.get_data 2 (some 2) [[5,6,7,8,1],[9,10,11,12,1]] [] =
      Except.ok ([[[5,6],[6,7]],[[9,10]]], [[7,8],[11]], [[1],[9,10,11,12,1]], []) ∧
    ([[[5,6],[6,7]],[[9,10]]] : List (List (List Int))).flatten.length = 3 := by
  constructor
  · show Except.ok (ngramLoop 2 2 [[5,6,7,8,1],[9,10,11,12,1]] [] 0 [] []) = _
    repeat
      rw [ngramLoop.eq_def]
      norm_num [ngramStep, cacheRefill, pyTake, pyDrop, slidingWindow]
    all_goals decide
  · decide

/-- C1 (amended): for every request `r ≥ 1`, `NGramStream.get_data(r)`
returns two top-level sequences of the same length — one (possibly
truncated) group of windows and targets per processed sentence — with at
most `r` groups, group `i` holding at most `r - i` aligned window/target
pairs; the loop stops after at most `r` sentences, not after exactly `r`
examples. -/
theorem NGramStream.get_data_group_structure (K : Nat) (r : Int)
    (C : List Sentence) (up : List (List Sentence)) (hK : 1 ≤ K) (hr : 1 ≤ r) :
    ∃ f t C2 up2,
      NGramStream.get_data K (some r) C up = Except.ok (f, t, C2, up2) ∧
      f.length = t.length ∧ (f.length : Int) ≤ r ∧
      ∀ i, i < f.length →
        (f.getD i []).length = (t.getD i []).length ∧
        ((f.getD i []).length : Int) + (i : Int) ≤ r := by
  have hb := ngramLoop_bounds K r hK (loopMeasure C up 0) C up 0 [] [] le_rfl rfl rfl
    (by omega) (by intro i hi; exact absurd hi (Nat.not_lt_zero i))
  exact ⟨(ngramLoop K r C up 0 [] []).1, (ngramLoop K r C up 0 [] []).2.1,
    (ngramLoop K r C up 0 [] []).2.2.1, (ngramLoop K r C up 0 [] []).2.2.2, rfl,
    hb.1, hb.2.1, hb.2.2⟩

/-- Witness for `NGramStream.get_data_group_structure` at `K = 2`, `r = 2`,
cache `[[5,6,7,8,1],[9,10,11,12,1]]`, empty upstream. -/
theorem NGramStream.get_data_group_structure_witness :
    (1 : Nat) ≤ 2 ∧ (1 : Int) ≤ 2 ∧
    ∃ f t C2 up2,
      NGramStream.get_data 2 (some 2) [[5,6,7,8,1],[9,10,11,12,1]] [] =
        Except.ok (f, t, C2, up2) ∧
      f.length = t.length ∧ (f.length : Int) ≤ 2 ∧
      ∀ i, i < f.length →
        (f.getD i []).length = (t.getD i []).length ∧
        ((f.getD i []).length : Int) + (i : Int) ≤ 2 :=
  ⟨by decide, by decide,
    NGramStream.get_data_group_structure 2 2 [[5,6,7,8,1],[9,10,11,12,1]] []
      (by decide) (by decide)⟩

/-- C6 (counterexample): with an empty cache and an exhausted upstream no
example can be produced, yet `get_data` returns two empty sequences and
raises nothing — the `for` loop over the empty cache list never runs, so no
`EndOfDataError` is signalled. -/
theorem NGramStream.get_data_empty_cache_cex :
    NGramStream.get_data 2 (some 5) [] [] = Except.ok ([], [], [], []) := by
  show Except.ok (ngramLoop 2 5 [] [] 0 [] []) = _
  rw [ngramLoop.eq_def]
  norm_num

/-- C6 (amended): whenever the cache is empty, `NGramStream.get_data`
returns a pair of empty sequences without consulting the upstream at all,
instead of failing with `EndOfDataError`. -/
theorem NGramStream.get_data_empty_cache (K : Nat) (r : Int)
    (up : List (List Sentence)) :
    NGramStream.get_data K (some r) [] up = Except.ok ([], [], [], up) := by
  show Except.ok (ngramLoop K r [] up 0 [] []) = _
  rw [ngramLoop.eq_def]
  norm_num

/-- C7 (counterexample): an upstream descriptor with zero sources is
accepted by `NGramStream.__init__` — the check is `len(sources) > 1`, so
only two or more sources raise; the exactly-one requirement of the claim
is not enforced at the lower end. -/
theorem NGramStream.init_zero_sources :
    NGramStream.init 2 [] ("targets") = some ([("targets")], 2) := rfl

/-- C7 (amended): `NGramStream.__init__` fails with `ConfigurationError`
iff the upstream names two or more data sources; zero sources or one source
are accepted. -/
theorem NGramStream.init_fails_iff_many_sources (ngram_order : Nat) (sources : List String)
    (target_source : String) :
    NGramStream.init ngram_order sources target_source = none ↔
      2 ≤ sources.length := by
  unfold NGramStream.init
  by_cases h : 1 < sources.length
  · rw [if_pos h]
    simp only [true_iff]
    omega
  · rw [if_neg h]
    constructor
    · intro hc
      exact absurd hc (Option.some_ne_none _)
    · intro h2
      exact absurd h2 (by omega)

/-- C10: calling `NGramStream.get_data` with its default `request=None` on a
cache holding at least one (non-empty) sentence raises `TypeError`: the slice
bound `request - len(features)` is `None - int` as soon as the loop body
runs. -/
theorem NGramStream.get_data_default_request (K : Nat) (s : Sentence)
    (rest : List Sentence) (up : List (List Sentence)) (_hs : s ≠ []) :
    NGramStream.get_data K none (s :: rest) up = Except.error PyError.typeError := rfl

/-- Witness for `NGramStream.get_data_default_request` at `K = 3`,
cache `[[1,2,3]]`. -/
theorem NGramStream.get_data_default_request_witness :
    ([1,2,3] : Sentence) ≠ [] ∧
    NGramStream.get_data 3 none [[1,2,3]] [] = Except.error PyError.typeError :=
  ⟨by decide, NGramStream.get_data_default_request 3 [1,2,3] [] [] (by decide)⟩

/-- C2 (code evaluation at the failing input): with `ngram_order = 1` and
cache `[[1,2],[3,4],[5,6]]` (three available examples, upstream exhausted),
three requests of size 1 — summing to the total — yield the examples
`([1]→2), ([3]→4)`, while a single request of size 3 yields
`([1]→2), ([5]→6)`: the concatenations differ, the single call drops
the example of sentence `[3,4]` (the iterator skips it after the head pop while
`cache[0][0] = cache[0][0][request:]` erases its tokens), and a following
second call of size 3 emits `([5]→6)` again — dropped and duplicated data. -/
theorem NGramStream.requests_drop_and_duplicate :
    flatExamples (NGramStream.runRequests 1 [1,1,1] [[1,2],[3,4],[5,6]] []).1 =
      ([[1],[3]], [2,4]) ∧
    flatExamples (NGramStream.runRequests 1 [3] [[1,2],[3,4],[5,6]] []).1 =
      ([[1],[5]], [2,6]) ∧
    flatExamples (NGramStream.runRequests 1 [3,3] [[1,2],[3,4],[5,6]] []).1 =
      ([[1],[5],[5]], [2,6,6]) ∧
    (([[1],[3]] : List (List Int)) ≠ [[1],[5]]) := by
  have h1 : ngramLoop 1 1 [[1,2],[3,4],[5,6]] [] 0 [] [] =
      ([[[1]]], [[2]], [[2],[3,4],[5,6]], []) := by
    repeat
      rw [ngramLoop.eq_def]
      norm_num [ngramStep, cacheRefill, pyTake, pyDrop, slidingWindow]
  have h2 : ngramLoop 1 1 [[2],[3,4],[5,6]] [] 0 [] [] =
      ([[]], [[]], [[3,4],[5,6]], []) := by
    repeat
      rw [ngramLoop.eq_def]
      norm_num [ngramStep, cacheRefill, pyTake, pyDrop, slidingWindow]
  have h3 : ngramLoop 1 1 [[3,4],[5,6]] [] 0 [] [] =
      ([[[3]]], [[4]], [[4],[5,6]], []) := by
    repeat
      rw [ngramLoop.eq_def]
      norm_num [ngramStep, cacheRefill, pyTake, pyDrop, slidingWindow]
  have h4 : ngramLoop 1 3 [[1,2],[3,4],[5,6]] [] 0 [] [] =
      ([[[1]],[[5]]], [[2],[6]], [[5,6]], []) := by
    repeat
      rw [ngramLoop.eq_def]
      norm_num [ngramStep, cacheRefill, pyTake, pyDrop, slidingWindow]
  have h5 : ngramLoop 1 3 [[5,6]] [] 0 [] [] = ([[[5]]], [[6]], [], []) := by
    repeat
      rw [ngramLoop.eq_def]
      norm_num [ngramStep, cacheRefill, pyTake, pyDrop, slidingWindow]
  refine ⟨?_, ?_, ?_, by decide⟩
  · simp [NGramStream.runRequests, h1, h2, h3, flatExamples]
  · simp [NGramStream.runRequests, h4, flatExamples]
  · simp [NGramStream.runRequests, h4, h5, flatExamples]

/-- C3: for a sentence `s` processed with its full budget (`r ≥ len(s)`,
single-sentence cache), the produced window group is exactly the list of
contiguous length-`K` subsequences of `s` with the last token excluded
(windows start at `i = 0, …, len(s)-K-1`), and the target group is
`s[K:]`, i.e. the target paired with the window starting at `i` is the
token `s[i+K]` immediately following that window. -/
theorem NGramStream.get_data_single_sentence (K : Nat) (r : Int) (s : Sentence)
    (hK : 1 ≤ K) (hr : (s.length : Int) ≤ r) :
    NGramStream.get_data K (some r) [s] [] =
      Except.ok ([(List.range (s.length - K)).map (fun i => (s.drop i).take K)],
        [s.drop K], [], []) ∧
    ∀ i, i < s.length - K → (s.drop K).getD i 0 = s.getD (i + K) 0 := by
  have hd : pyDrop r s = [] := pyDrop_of_length_le s hr
  have hstep : ngramStep r [s] [] = ([], []) := by
    unfold ngramStep cacheRefill
    simp [hd]
  have hwin : pyTake r (slidingWindow K s.dropLast) = slidingWindow K s.dropLast := by
    apply pyTake_of_length_le
    rw [slidingWindow_length hK, List.length_dropLast]
    omega
  have htgt : pyTake r (s.drop K) = s.drop K := by
    apply pyTake_of_length_le
    rw [List.length_drop]
    omega
  have hform : slidingWindow K s.dropLast =
      (List.range (s.length - K)).map (fun i => (s.drop i).take K) := by
    rw [slidingWindow_eq_map hK]
    have hcount : s.dropLast.length + 1 - K = s.length - K := by
      rw [List.length_dropLast]
      omega
    rw [hcount]
    apply List.map_congr_left
    intro i hi
    rw [List.mem_range] at hi
    have hij : i + K ≤ ((s.drop 0).dropLast).length := by
      rw [List.drop_zero, List.length_dropLast]
      omega
    have h2 := (window_in_tail hK hij).1
    rw [List.drop_zero, Nat.zero_add] at h2
    exact h2
  constructor
  · show Except.ok (ngramLoop K r [s] [] 0 [] []) = _
    rw [ngramLoop.eq_def]
    rw [dif_pos (by simp : (0:Nat) < ([s] : List Sentence).length)]
    simp only [List.getD_cons_zero, List.length_nil, Nat.cast_zero, sub_zero, hstep,
      List.nil_append]
    rw [hwin, htgt, hform]
    by_cases hb : (0 : Int) + 1 = r
    · rw [if_pos hb]
    · rw [if_neg hb]
      rw [ngramLoop.eq_def]
      rw [dif_neg (by simp)]
  · intro i hi
    rw [List.getD_eq_getElem?_getD, List.getD_eq_getElem?_getD, List.getElem?_drop]
    rw [Nat.add_comm i K]

/-- Witness for `NGramStream.get_data_single_sentence`: the scenario of the spec:
`ngram_order = 2`, sentence `[5,6,7,8,1]` → windows `[[5,6],[6,7],[7,8]]`,
targets `[7,8,1]`. -/
theorem NGramStream.get_data_single_sentence_witness :
    (1 : Nat) ≤ 2 ∧ (([5,6,7,8,1] : Sentence).length : Int) ≤ 5 ∧
    NGramStream.get_data 2 (some 5) [[5,6,7,8,1]] [] =
      Except.ok ([[[5,6],[6,7],[7,8]]], [[7,8,1]], [], []) := by
  refine ⟨by decide, by decide, ?_⟩
  have h := (NGramStream.get_data_single_sentence 2 5 [5,6,7,8,1] (by decide) (by decide)).1
  rw [h]
  congr 1

/-- C5: across any sequence of `get_data` calls, every emitted window is a
contiguous block of `K` tokens drawn from a single one of the sentences
originally present in the cache or in the upstream batches — no window
spans two sentences — and that sentence extends at least one token beyond
the window; consequently a sentence with fewer than `ngram_order + 1`
tokens contributes no window, and when every available sentence is that
short, no window at all is emitted. -/
theorem NGramStream.windows_within_sentences (K : Nat) (rs : List Int)
    (C : List Sentence) (up : List (List Sentence)) :
    (∀ out ∈ (NGramStream.runRequests K rs C up).1, ∀ g ∈ out.1, ∀ w ∈ g,
      winFrom (C ++ up.flatten) K w) ∧
    ((∀ s ∈ C ++ up.flatten, s.length < K + 1) →
      (flatExamples (NGramStream.runRequests K rs C up).1).1 = []) := by
  have hC : ∀ c ∈ C, tailOf (C ++ up.flatten) c := by
    intro c hc
    exact ⟨c, List.mem_append_left _ hc, 0, (List.drop_zero c).symm⟩
  have hup : ∀ c ∈ up.flatten, tailOf (C ++ up.flatten) c := by
    intro c hc
    exact ⟨c, List.mem_append_right _ hc, 0, (List.drop_zero c).symm⟩
  have hmain := runRequests_winFrom K (C ++ up.flatten) rs C up hC hup
  refine ⟨hmain.1, ?_⟩
  intro hshort
  rw [List.eq_nil_iff_forall_not_mem]
  intro w hw
  unfold flatExamples at hw
  simp only [List.mem_flatten, List.mem_map] at hw
  obtain ⟨l, ⟨out, hout, hleq⟩, hwl⟩ := hw
  rw [← hleq, List.mem_flatten] at hwl
  obtain ⟨g, hg, hwg⟩ := hwl
  obtain ⟨s, hs, i, hweq, hbound⟩ := hmain.1 out hout g hg w hwg
  have hlen := hshort s hs
  omega

/-- Witness for `NGramStream.windows_within_sentences`: a single sentence
`[1,2]` shorter than `ngram_order + 1 = 3` yields no windows. -/
theorem NGramStream.windows_within_sentences_witness :
    (∀ s ∈ ([[1,2]] : List Sentence) ++ ([] : List (List Sentence)).flatten,
      s.length < 2 + 1) ∧
    (flatExamples (NGramStream.runRequests 2 [2] [[1,2]] []).1).1 = [] := by
  refine ⟨by decide, ?_⟩
  exact (NGramStream.windows_within_sentences 2 [2] [[1,2]] []).2 (by decide)

/-- C8: `TextFile` construction fails with `ConfigurationError` exactly when
a supplied (non-`None`) BOS or EOS token is absent from the dictionary, the
unknown token is absent from the dictionary, or the granularity mode is
neither `word` nor `character`; otherwise construction succeeds.  The check
is performed by `__init__` itself, i.e. eagerly at construction time. -/
theorem TextFile.init_fails_iff_bad_config (files : List String) (d : Dict)
    (bos eos : Option String) (unk : String) (level : String)
    (pre : Option (String → String)) :
    TextFile.init files d bos eos unk level pre = none ↔
      ((∃ b, bos = some b ∧ List.lookup b d = none) ∨
       (∃ e, eos = some e ∧ List.lookup e d = none) ∨
       List.lookup unk d = none ∨
       (level ≠ ("word") ∧ level ≠ ("character"))) := by
  unfold TextFile.init
  split_ifs with h1 h2 h3 h4
  · simp only [true_iff]
    left
    cases bos with
    | none => simp at h1
    | some b =>
      refine ⟨b, rfl, ?_⟩
      simpa [Option.isNone_iff_eq_none] using h1
  · simp only [true_iff]
    right; left
    cases eos with
    | none => simp at h2
    | some e =>
      refine ⟨e, rfl, ?_⟩
      simpa [Option.isNone_iff_eq_none] using h2
  · simp only [true_iff]
    right; right; left
    simpa [Option.isNone_iff_eq_none] using h3
  · simp only [true_iff]
    right; right; right
    exact h4
  · constructor
    · intro hc
      simp at hc
    · intro hor
      exfalso
      rcases hor with ⟨b, hbeq, hbl⟩ | ⟨e, heeq, hel⟩ | hunk | hlev
      · apply h1
        rw [hbeq]
        simp [hbl]
      · apply h2
        rw [heeq]
        simp [hel]
      · apply h3
        simp [hunk]
      · exact h4 hlev

/-- The optional BOS/EOS sentinel ids as the spec states them
(`[BOS_id]?` / `[EOS_id]?`): the id of the token when one is configured,
nothing otherwise. -/
def optSentinelIds (d : Dict) (tok : Option String) : List Int :=
  match tok with
  | none => []
  | some t => [(List.lookup t d).getD 0]

/-- The per-line encoding exactly as the spec states it:
`[BOS_id]? + [dict.get(tok, unk_id) for tok in tokens] + [EOS_id]?` over the
whitespace-split tokens of the preprocessed line. -/
def specEncodeLine (d : Dict) (bos_token eos_token : Option String)
    (unk_token : String) (preprocess : Option (String → String))
    (line : String) : List Int :=
  optSentinelIds d bos_token ++
    (pySplit (applyPreprocess preprocess line)).map
      (fun t => (List.lookup t d).getD ((List.lookup unk_token d).getD 0)) ++
    optSentinelIds d eos_token

/-- C4: for every line read by `get_data` on a validly constructed
word-level `TextFile` (with non-empty sentinel tokens, see the companion
falsy-token theorem), the produced id sequence is exactly the form the spec states:
`[BOS_id]? + [dict.get(tok, unk_id) for tok in tokens] + [EOS_id]?`:
tokens absent from the dictionary are mapped to the unknown id and no
exception is raised. -/
theorem TextFile.get_data_encodes_line (files : List String) (d : Dict)
    (bos eos : Option String) (unk : String) (pre : Option (String → String))
    (tf : TextFile) (line : String) (rest : List String)
    (hinit : TextFile.init files d bos eos unk ("word") pre = some tf)
    (hbos : bos ≠ some ("")) (heos : eos ≠ some ("")) :
    tf.get_data (line :: rest) none =
      Except.ok (specEncodeLine d bos eos unk pre line, rest) := by
  unfold TextFile.init at hinit
  split_ifs at hinit with h1 h2 h3
  injection hinit with htf
  subst htf
  obtain ⟨u, hu⟩ : ∃ u, List.lookup unk d = some u := by
    cases hl : List.lookup unk d with
    | none =>
      exfalso
      apply h3
      simp [hl]
    | some u => exact ⟨u, rfl⟩
  have hbosids : sentinelIds d bos = Except.ok (optSentinelIds d bos) := by
    cases bos with
    | none => rfl
    | some b =>
      have hbne : b ≠ "" := by
        intro hbe
        rw [hbe] at hbos
        exact hbos rfl
      obtain ⟨v, hv⟩ : ∃ v, List.lookup b d = some v := by
        cases hl : List.lookup b d with
        | none =>
          exfalso
          apply h1
          simp [hl]
        | some v => exact ⟨v, rfl⟩
      simp only [sentinelIds, dictGetItem, optSentinelIds, if_neg hbne, hv, Except.map,
        Option.getD_some]
  have heosids : sentinelIds d eos = Except.ok (optSentinelIds d eos) := by
    cases eos with
    | none => rfl
    | some e =>
      have hene : e ≠ "" := by
        intro hee
        rw [hee] at heos
        exact heos rfl
      obtain ⟨v, hv⟩ : ∃ v, List.lookup e d = some v := by
        cases hl : List.lookup e d with
        | none =>
          exfalso
          apply h2
          simp [hl]
        | some v => exact ⟨v, rfl⟩
      simp only [sentinelIds, dictGetItem, optSentinelIds, if_neg hene, hv, Except.map,
        Option.getD_some]
  have hbody : unkMapIds d unk (pySplit (applyPreprocess pre line)) =
      Except.ok ((pySplit (applyPreprocess pre line)).map
        (fun t => (List.lookup t d).getD ((List.lookup unk d).getD 0))) := by
    unfold unkMapIds
    rw [hu]
    simp only [Option.getD_some]
  have htoks : TextFile.tokens ⟨files, d, bos, eos, unk, ("word"), pre⟩
      (applyPreprocess pre line) = pySplit (applyPreprocess pre line) := by
    unfold TextFile.tokens
    rw [if_pos rfl]
  unfold TextFile.get_data
  simp only [htoks, hbosids, heosids, hbody]
  unfold specEncodeLine
  rfl

/-- Witness for `TextFile.get_data_encodes_line`: the scenario of the spec —
dictionary mapping <UNK> to 0, </S> to 1, this to 2, a to 3, one to 4, lowercasing preprocess,
no BOS; the two lines encode to `[2,0,3,0,1]` and `[2,0,4,1]`. -/
theorem TextFile.get_data_encodes_line_witness :
    ∃ tf, TextFile.init [("sentences.txt")]
        [("<UNK>",0),("</S>",1),("this",2),("a",3),("one",4)]
        none (some ("</S>")) ("<UNK>") ("word") (some lowerLine) = some tf ∧
      tf.get_data [("This is a sentence\n"), ("This another one")] none =
        Except.ok ([2,0,3,0,1], [("This another one")]) ∧
      tf.get_data [("This another one")] none = Except.ok ([2,0,4,1], []) := by
  refine ⟨_, rfl, ?_, ?_⟩
  · have h := TextFile.get_data_encodes_line [("sentences.txt")]
      [("<UNK>",0),("</S>",1),("this",2),("a",3),("one",4)]
      none (some ("</S>")) ("<UNK>") (some lowerLine) _
      ("This is a sentence\n") [("This another one")] rfl (by simp) (by simp)
    rw [h]
    congr 1
  · have h := TextFile.get_data_encodes_line [("sentences.txt")]
      [("<UNK>",0),("</S>",1),("this",2),("a",3),("one",4)]
      none (some ("</S>")) ("<UNK>") (some lowerLine) _
      ("This another one") [] rfl (by simp) (by simp)
    rw [h]
    congr 1

/-- C9: a non-`None` but falsy (empty-string) BOS/EOS token that is present
in the dictionary passes construction-time validation (the check is
`is not None`), yet `get_data` emits no BOS/EOS id at all, because emission
is gated on the Python truthiness of the token (`if self.bos_token`), and
the empty string is
falsy. -/
theorem TextFile.empty_token_not_emitted (files : List String) (d : Dict)
    (unk : String) (pre : Option (String → String)) (line : String)
    (rest : List String) (v u : Int)
    (hv : List.lookup ("") d = some v) (hu : List.lookup unk d = some u) :
    ∃ tf, TextFile.init files d (some ("")) (some ("")) unk ("word") pre = some tf ∧
      tf.get_data (line :: rest) none =
        Except.ok ((pySplit (applyPreprocess pre line)).map
          (fun t => (List.lookup t d).getD u), rest) := by
  refine ⟨⟨files, d, some (""), some (""), unk, ("word"), pre⟩, ?_, ?_⟩
  · unfold TextFile.init
    simp [hv, hu]
  · have hb : sentinelIds d (some ("")) = Except.ok [] := by
      simp [sentinelIds]
    have htoks : TextFile.tokens ⟨files, d, some (""), some (""), unk, ("word"), pre⟩
        (applyPreprocess pre line) = pySplit (applyPreprocess pre line) := by
      unfold TextFile.tokens
      rw [if_pos rfl]
    have hbody : unkMapIds d unk (pySplit (applyPreprocess pre line)) =
        Except.ok ((pySplit (applyPreprocess pre line)).map
          (fun t => (List.lookup t d).getD u)) := by
      unfold unkMapIds
      rw [hu]
    unfold TextFile.get_data
    simp only [htoks, hb, hbody, List.nil_append, List.append_nil]

/-- Witness for `TextFile.empty_token_not_emitted`: dictionary
mapping the empty string to 9, <UNK> to 0 and x to 5, with a two-token
line producing ids `[5,0]` and no sentinel id
emitted despite `bos_token = eos_token = ""` being present in the
dictionary. -/
theorem TextFile.empty_token_not_emitted_witness :
    ∃ tf, TextFile.init [] [("",9),("<UNK>",0),("x",5)]
        (some ("")) (some ("")) ("<UNK>") ("word") none = some tf ∧
      tf.get_data [("x y")] none = Except.ok ([5,0], []) := by
  obtain ⟨tf, h1, h2⟩ := TextFile.empty_token_not_emitted []
    [("",9),("<UNK>",0),("x",5)] ("<UNK>") none ("x y") [] 9 0 rfl rfl
  refine ⟨tf, h1, ?_⟩
  rw [h2]
  congr 1
